import Mathlib

/-!
Verification development for the flowSentry risk-analysis core.

The TypeScript modules are shallowly embedded:
* JS numbers become `ℚ` (exact rationals); `Number(x.toFixed(2))` becomes
  `round2`, `Math.round` becomes `round`.
* JS objects used as string-keyed maps become insertion-ordered association
  lists (`List (String × α)`): assignment `obj[k] = v` updates in place when
  the key exists and appends otherwise, matching JS enumeration order.
* Pieces of JS division semantics that can produce `NaN`/`Infinity` are
  embedded by the `JsNum` type.
* Code that throws returns `Except`; the module-specific `*Error extends
  Error` classes become structures carrying the same `code`/`message`.
-/

namespace FlowSentry

/-- JS association-list lookup: `obj[k]`, `none` models `undefined`. -/
def lookupA {α : Type} : List (String × α) → String → Option α
  | [], _ => none
  | (k', v) :: rest, k => if k' = k then some v else lookupA rest k

/-- JS assignment `obj[k] = v`: in-place update when the key exists,
append otherwise (JS string keys enumerate in insertion order). -/
def setA {α : Type} : List (String × α) → String → α → List (String × α)
  | [], k, v => [(k, v)]
  | (k', v') :: rest, k, v =>
    if k' = k then (k', v) :: rest else (k', v') :: setA rest k v

/-- `Number(x.toFixed(2))`: round to two decimal places
(ties to the larger value, as `toFixed` does). -/
def round2 (q : ℚ) : ℚ := (round (q * 100) : ℤ) / 100

/-- The subset of IEEE values a JS numeric expression of this codebase can
take: a finite value (kept exact as `ℚ`), `NaN`, or a signed infinity. -/
inductive JsNum where
  | num (q : ℚ)
  | nan
  | posInf
  | negInf
deriving DecidableEq, Repr

/-- JS division `a / b` including the `b = 0` cases. -/
def jsDiv (a b : ℚ) : JsNum :=
  if b = 0 then
    (if a = 0 then .nan else if 0 < a then .posInf else .negInf)
  else .num (a / b)

/-- JS multiplication of a possibly non-finite value by a finite constant. -/
def jsMulC (x : JsNum) (c : ℚ) : JsNum :=
  match x with
  | .num q => .num (q * c)
  | .nan => .nan
  | .posInf => if c = 0 then .nan else if 0 < c then .posInf else .negInf
  | .negInf => if c = 0 then .nan else if 0 < c then .negInf else .posInf

/-- `Math.round` lifted to `JsNum` (`Math.round` of `±∞` is `±∞`, of `NaN` is `NaN`). -/
def jsRound (x : JsNum) : JsNum :=
  match x with
  | .num q => .num (round q)
  | y => y

-- ==========================================================================
-- MODULE 4: src/timing-analyzer/timingAnalyzer.ts
-- ==========================================================================

/-- `TimingEvent`. The `timestamp` field of the source is an ISO-8601 string
run through `Date.parse`; we embed a string by its parse result: `none`
models a string for which `Date.parse` yields `NaN`, `some m` models a
string parsing to `m` milliseconds. -/
structure TimingEvent where
  issueId : String
  fromState : String
  toState : String
  timestamp : Option ℚ
deriving DecidableEq, Repr

structure TimingAnalysis where
  stateAverages : List (String × ℚ)
  bottlenecks : List String
deriving DecidableEq, Repr

/-- `TimingAnalyzerError(code, message)`. -/
structure TimingAnalyzerError where
  code : String
  message : String
deriving DecidableEq, Repr

/-- The module-level mutable maps of timingAnalyzer.ts, passed explicitly:
`lastSeenState : issueId -> { state, timestamp }`,
`stateTotals : state -> seconds`, `stateCounts : state -> entries`. -/
structure TimingState where
  lastSeenState : List (String × (String × ℚ))
  stateTotals : List (String × ℚ)
  stateCounts : List (String × ℚ)
deriving DecidableEq, Repr

def emptyTimingState : TimingState := ⟨[], [], []⟩

/-- `parseTimestamp`: throws `INVALID_TRANSITION_SEQUENCE` when `Date.parse`
returned `NaN`. -/
def parseTimestamp (ts : Option ℚ) : Except TimingAnalyzerError ℚ :=
  match ts with
  | none => .error ⟨"INVALID_TRANSITION_SEQUENCE", "Invalid timestamp format"⟩
  | some parsed => .ok parsed

/-- `updateTiming(event)`. The pair holds the thrown-or-ok outcome and the
state of the three maps when the function exits; every `throw` in the source
occurs before any map mutation, which this embedding mirrors statement by
statement. -/
def updateTiming (event : TimingEvent) (σ : TimingState) :
    Except TimingAnalyzerError Unit × TimingState :=
  if event.issueId = "" ∨ event.fromState = "" ∨ event.toState = "" then
    (.error ⟨"INVALID_TRANSITION_SEQUENCE", "Missing required event fields"⟩, σ)
  else
    match parseTimestamp event.timestamp with
    | .error e => (.error e, σ)
    | .ok time =>
      match lookupA σ.lastSeenState event.issueId with
      | some previous =>
        let durationSeconds := (time - previous.2) / 1000
        if durationSeconds < 0 then
          (.error ⟨"INVALID_TRANSITION_SEQUENCE", "Timestamp order invalid"⟩, σ)
        else
          (.ok (),
            { lastSeenState := setA σ.lastSeenState event.issueId (event.toState, time),
              stateTotals := setA σ.stateTotals previous.1
                ((lookupA σ.stateTotals previous.1).getD 0 + durationSeconds),
              stateCounts := setA σ.stateCounts previous.1
                ((lookupA σ.stateCounts previous.1).getD 0 + 1) })
      | none =>
        (.ok (),
          { σ with lastSeenState := setA σ.lastSeenState event.issueId (event.toState, time) })

/-- `computeBottlenecks(projectId)`. Iterates `Object.keys(stateTotals)`;
`stateCounts[state]` is present and positive whenever `stateTotals[state]`
is (both are written together by `updateTiming`), so the `getD 0` default is
never exercised on states reachable through the module's API. -/
def computeBottlenecks (projectId : String) (σ : TimingState) :
    Except TimingAnalyzerError TimingAnalysis :=
  if projectId = "" then
    .error ⟨"INSUFFICIENT_DATA", "projectId is required"⟩
  else
    let keys := σ.stateTotals.map Prod.fst
    let stateAverages := keys.map (fun state =>
      (state, (lookupA σ.stateTotals state).getD 0 / (lookupA σ.stateCounts state).getD 0))
    let totalAverage := (stateAverages.map Prod.snd).sum
    let stateCount := keys.length
    if stateCount = 0 then
      .error ⟨"INSUFFICIENT_DATA", "No timing data available"⟩
    else
      let globalAverage := totalAverage / stateCount
      let bottlenecks :=
        (stateAverages.filter (fun p => globalAverage * 1.5 < p.2)).map Prod.fst
      .ok ⟨stateAverages, bottlenecks⟩

-- ==========================================================================
-- MODULE 5: src/rule-analyzer/ruleAnalyzer.ts
-- ==========================================================================

/-- One entry of `actions`. `value : unknown` in the source is only ever
compared with `!==` and against the string sentinel `"CURRENT"`; the string
values occurring in this repository are embedded as `String`. -/
structure RuleAction where
  field : String
  value : String
deriving DecidableEq, Repr

structure AutomationRule where
  id : String
  trigger : String
  actions : List RuleAction
deriving DecidableEq, Repr

inductive ConflictType where
  | overwrite
  | loop
deriving DecidableEq, Repr

structure RuleConflict where
  ruleA : String
  ruleB : String
  trigger : String
  field : String
  conflictType : ConflictType
deriving DecidableEq, Repr

structure RuleConflictReport where
  conflicts : List RuleConflict
deriving DecidableEq, Repr

/-- `RuleAnalyzerError(code, message)`. -/
structure RuleAnalyzerError where
  code : String
  message : String
deriving DecidableEq, Repr

/-- The two inner action loops of `analyzeRules` for a rule pair that
already passed the same-trigger check: per `(actionA, actionB)` pair on the
same field, an `OVERWRITE` push when the values differ, then an independent
`LOOP` push when either value is the sentinel `"CURRENT"`. -/
def pairConflicts (ruleA ruleB : AutomationRule) : List RuleConflict :=
  ruleA.actions.flatMap (fun actionA =>
    ruleB.actions.flatMap (fun actionB =>
      if actionA.field = actionB.field then
        (if actionA.value ≠ actionB.value then
          [⟨ruleA.id, ruleB.id, ruleA.trigger, actionA.field, .overwrite⟩] else []) ++
        (if actionA.value = "CURRENT" ∨ actionB.value = "CURRENT" then
          [⟨ruleA.id, ruleB.id, ruleA.trigger, actionA.field, .loop⟩] else [])
      else []))

/-- The two outer loops of `analyzeRules` (`i < j` over the rule list),
skipping pairs whose triggers differ. -/
def detectConflicts : List AutomationRule → List RuleConflict
  | [] => []
  | r :: rest =>
    (rest.flatMap (fun r2 => if r.trigger = r2.trigger then pairConflicts r r2 else [])) ++
    detectConflicts rest

/-- `analyzeRules(projectId, ruleProvider)`. The awaited
`ruleProvider.fetchRules` call is embedded by its outcome: `.error ()` models
a rejected promise, `.ok rules` a delivered rule list (always an array in
the typed embedding, so the `Array.isArray` guard cannot fire). -/
def analyzeRules (projectId : String) (fetched : Except Unit (List AutomationRule)) :
    Except RuleAnalyzerError RuleConflictReport :=
  if projectId = "" then
    .error ⟨"RULE_ACCESS_DENIED", "projectId is required"⟩
  else
    match fetched with
    | .error _ => .error ⟨"RULE_ACCESS_DENIED", "Unable to fetch automation rules"⟩
    | .ok rules => .ok ⟨detectConflicts rules⟩

-- ==========================================================================
-- MODULE 6: src/risk-engine/riskEngine.ts
-- ==========================================================================

/-- `GraphAnalysis` (shared shape of graphAnalyzer / riskEngine /
explanationEngine). -/
structure GraphAnalysis where
  cycles : List (List String)
  deadEnds : List String
  maxDepth : Nat
  unreachableStates : List String
deriving DecidableEq, Repr

/-- `RiskScore.breakdown`; the source field `structure` is a Lean keyword
and is embedded as `structural`. -/
structure Breakdown where
  structural : ℚ
  timing : ℚ
  automation : ℚ
deriving DecidableEq, Repr

structure RiskScore where
  overallScore : ℚ
  breakdown : Breakdown
deriving DecidableEq, Repr

/-- `computeRisk(graph, timing, automation)`. The `MISSING_SIGNAL` null
check of the source cannot fire for well-typed arguments, so the embedding
is total. The `WEIGHTS` constants 0.5 / 0.3 / 0.2 appear inline. -/
def computeRisk (graph : GraphAnalysis) (timing : TimingAnalysis)
    (automation : RuleConflictReport) : RiskScore :=
  let structureSignals : ℚ :=
    graph.cycles.length + graph.deadEnds.length + graph.unreachableStates.length +
      max 0 ((graph.maxDepth : ℚ) - 5)
  let structureRisk := min (structureSignals / 10) 1
  let timingSignals : ℚ := timing.bottlenecks.length
  let timingRisk := min (timingSignals / 5) 1
  let automationSignals : ℚ :=
    (automation.conflicts.map (fun conflict =>
      if conflict.conflictType = .loop then (2 : ℚ) else 1)).sum
  let automationRisk := min (automationSignals / 5) 1
  let overallScore := structureRisk * 0.5 + timingRisk * 0.3 + automationRisk * 0.2
  { overallScore := round2 overallScore,
    breakdown :=
      { structural := round2 structureRisk,
        timing := round2 timingRisk,
        automation := round2 automationRisk } }

-- ==========================================================================
-- MODULE 7: src/explanation-engine/explanationEngine.ts
-- ==========================================================================

structure Explanation where
  summary : String
  details : List String
deriving DecidableEq, Repr

/-- The `analyses` argument of `explainRisk`. -/
structure Analyses where
  graph : GraphAnalysis
  timing : TimingAnalysis
  automation : RuleConflictReport
deriving DecidableEq, Repr

/-- `explainRisk(riskScore, analyses)`. The `EXPLANATION_MISMATCH` null
check cannot fire for well-typed arguments, so the embedding is total. The
detail pushes appear in source order. -/
def explainRisk (riskScore : RiskScore) (analyses : Analyses) : Explanation :=
  let graph := analyses.graph
  let details : List String := []
  let details := if 0 < graph.cycles.length then
    details ++ [toString graph.cycles.length ++
      " workflow cycle(s) detected, which may cause issues to loop indefinitely."]
    else details
  let details := if 0 < graph.deadEnds.length then
    details ++ ["Dead-end states detected: " ++ String.intercalate ", " graph.deadEnds ++
      ". Issues may get stuck here."]
    else details
  let details := if 0 < graph.unreachableStates.length then
    details ++ ["Unreachable states found: " ++
      String.intercalate ", " graph.unreachableStates ++ ". These states are never entered."]
    else details
  let details := if 5 < graph.maxDepth then
    details ++ ["Workflow depth is " ++ toString graph.maxDepth ++
      ", which increases complexity and review overhead."]
    else details
  let timing := analyses.timing
  let details := if 0 < timing.bottlenecks.length then
    details ++ ["Bottleneck states detected: " ++
      String.intercalate ", " timing.bottlenecks ++
      ". These states take significantly longer than average."]
    else details
  let automation := analyses.automation
  let loopConflicts :=
    (automation.conflicts.filter (fun c => c.conflictType = ConflictType.loop)).length
  let overwriteConflicts :=
    (automation.conflicts.filter (fun c => c.conflictType = ConflictType.overwrite)).length
  let details := if 0 < automation.conflicts.length then
    (let details := if 0 < loopConflicts then
        details ++ [toString loopConflicts ++
          " automation loop conflict(s) detected, which can cause repeated updates."]
      else details
     if 0 < overwriteConflicts then
        details ++ [toString overwriteConflicts ++
          " automation overwrite conflict(s) detected, where rules modify the same field."]
      else details)
    else details
  let summary :=
    if (0.7 : ℚ) ≤ riskScore.overallScore then
      "Workflow risk is high due to multiple structural, timing, or automation issues."
    else if (0.4 : ℚ) ≤ riskScore.overallScore then
      "Workflow risk is moderate and may impact sprint predictability."
    else "Workflow risk is low."
  let details := if details.length = 0 then
    details ++ ["No significant workflow, timing, or automation issues detected."]
    else details
  ⟨summary, details⟩

-- ==========================================================================
-- MODULE 10: AI What-If Engine (src/unnamed/part_002)
-- ==========================================================================

structure PredictionResult where
  potentialScore : ℚ
  improvementPercentage : JsNum
  primaryAction : String
deriving DecidableEq, Repr

/-- `simulateImprovement(currentRisk, explanation)`. The source initialises
`primaryAction`/`reductionFactor` and then overwrites them in an exhaustive
if / else-if / else chain, embedded as the same chain; the `explanation`
argument is unused in the source as well. `isNaN(x) ? 0 : x` becomes the
final match on `JsNum.nan`. -/
def simulateImprovement (currentRisk : RiskScore) (explanation : Explanation) :
    PredictionResult :=
  let structural := currentRisk.breakdown.structural
  let timing := currentRisk.breakdown.timing
  let automation := currentRisk.breakdown.automation
  let chosen : String × ℚ :=
    if structural ≤ timing ∧ automation ≤ timing then
      ("Resolve state bottlenecks (Module 4)", timing * 0.5)
    else if automation ≤ structural then
      ("Fix structural cycles/dead-ends (Module 3)", structural * 0.4)
    else
      ("De-conflict automation rules (Module 5)", automation * 0.6)
  let reductionFactor := chosen.2
  let potentialScore := max 0.05 (currentRisk.overallScore - reductionFactor)
  let improvementPercentage :=
    jsRound (jsMulC (jsDiv (currentRisk.overallScore - potentialScore)
      currentRisk.overallScore) 100)
  { potentialScore := round2 potentialScore,
    improvementPercentage :=
      match improvementPercentage with
      | .nan => .num 0
      | x => x,
    primaryAction := chosen.1 }

-- ==========================================================================
-- MODULE 3: graph analyzer (src/test-module.js, graphAnalyzer.ts section)
-- ==========================================================================

/-- One `transitions` entry; the source fields `from`/`to` are embedded as
`fromState`/`toState` (`from` is a Lean keyword). -/
structure WTransition where
  fromState : String
  toState : String
deriving DecidableEq, Repr

structure WorkflowDefinition where
  workflowId : String
  states : List String
  transitions : List WTransition
deriving DecidableEq, Repr

/-- `if (graph[t.from]) graph[t.from].push(t.to)`: appends to the adjacency
list when the source state is a key (arrays are truthy in JS, empty ones
included), silently drops the edge otherwise. -/
def pushEdge (m : List (String × List String)) (t : WTransition) :
    List (String × List String) :=
  match m with
  | [] => []
  | (k, l) :: rest =>
    if k = t.fromState then (k, l ++ [t.toState]) :: rest
    else (k, l) :: pushEdge rest t

/-- The adjacency build of `analyzeGraph`: one (possibly empty) list per
declared state, then every transition pushed onto its source's list. -/
def buildAdj (w : WorkflowDefinition) : List (String × List String) :=
  w.transitions.foldl pushEdge (w.states.map (fun state => (state, [])))

/-- How an embedded DFS run can abort: `typeError` models the uncaught JS
`TypeError` raised by `for (const next of graph[state])` when
`graph[state]` is `undefined`; `fuelOut` is an artifact of the bounded
recursion used by the embedding and is unreachable for the fuel
`analyzeGraph` passes. -/
inductive DfsErr where
  | typeError
  | fuelOut
deriving DecidableEq, Repr

mutual
/-- `dfsReach(state)` of `analyzeGraph`, with the mutated `visited` set
threaded through and the recursion bounded by `fuel` (the JS recursion
depth never exceeds the number of distinct node names plus one). -/
def dfsReach (g : List (String × List String)) :
    Nat → List String → String → Except DfsErr (List String)
  | 0, _, _ => .error .fuelOut
  | fuel + 1, visited, state =>
    if state ∈ visited then .ok visited
    else
      match lookupA g state with
      | none => .error .typeError
      | some adj => dfsReachList g fuel (state :: visited) adj
termination_by fuel _ _ => (fuel, 0)

/-- The `for (const next of graph[state]) dfsReach(next)` loop. -/
def dfsReachList (g : List (String × List String)) :
    Nat → List String → List String → Except DfsErr (List String)
  | _, visited, [] => .ok visited
  | fuel, visited, next :: rest =>
    match dfsReach g fuel visited next with
    | .error e => .error e
    | .ok visited' => dfsReachList g fuel visited' rest
termination_by fuel _ l => (fuel, l.length + 1)
end

/-- The mutable state of the cycle-detection pass: the accumulated
`cycles`, the active recursion `stack`, and the global `visitedCycle` set. -/
structure CycleSt where
  cycles : List (List String)
  stck : List String
  visitedCycle : List String
deriving DecidableEq, Repr

mutual
/-- `dfsCycle(node, path)`: on a stack hit, pushes
`path.slice(path.indexOf(node))`; otherwise marks the node, recurses over
its adjacency list, and removes the node from the stack afterwards. -/
def dfsCycle (g : List (String × List String)) :
    Nat → CycleSt → String → List String → Except DfsErr CycleSt
  | 0, _, _, _ => .error .fuelOut
  | fuel + 1, st, node, path =>
    if node ∈ st.stck then
      .ok { st with cycles := st.cycles ++ [path.drop (path.indexOf node)] }
    else if node ∈ st.visitedCycle then .ok st
    else
      match lookupA g node with
      | none => .error .typeError
      | some adj =>
        match dfsCycleList g fuel
          { st with stck := node :: st.stck, visitedCycle := node :: st.visitedCycle }
          path adj with
        | .error e => .error e
        | .ok st' => .ok { st' with stck := st'.stck.erase node }
termination_by fuel _ _ _ => (fuel, 0)

/-- The `for (const next of graph[node]) dfsCycle(next, [...path, next])`
loop. -/
def dfsCycleList (g : List (String × List String)) :
    Nat → CycleSt → List String → List String → Except DfsErr CycleSt
  | _, st, _, [] => .ok st
  | fuel, st, path, next :: rest =>
    match dfsCycle g fuel st next (path ++ [next]) with
    | .error e => .error e
    | .ok st' => dfsCycleList g fuel st' path rest
termination_by fuel _ _ l => (fuel, l.length + 1)
end

/-- The `for (const state of workflow.states) dfsCycle(state, [state])`
driver loop. -/
def dfsCycleAll (g : List (String × List String)) (fuel : Nat) :
    CycleSt → List String → Except DfsErr CycleSt
  | st, [] => .ok st
  | st, state :: rest =>
    match dfsCycle g fuel st state [state] with
    | .error e => .error e
    | .ok st' => dfsCycleAll g fuel st' rest

mutual
/-- `dfsDepth(node, depth, seen)`, threading the mutated `maxDepth`
accumulator. -/
def dfsDepth (g : List (String × List String)) :
    Nat → Nat → String → Nat → List String → Except DfsErr Nat
  | 0, _, _, _, _ => .error .fuelOut
  | fuel + 1, maxD, node, depth, seen =>
    let maxD := max maxD depth
    match lookupA g node with
    | none => .error .typeError
    | some adj => dfsDepthList g fuel maxD adj depth seen
termination_by fuel _ _ _ _ => (fuel, 0)

/-- The inner loop of `dfsDepth`: skips already-seen successors, otherwise
recurses with a per-path copy of `seen` extended by the successor. -/
def dfsDepthList (g : List (String × List String)) :
    Nat → Nat → List String → Nat → List String → Except DfsErr Nat
  | _, maxD, [], _, _ => .ok maxD
  | fuel, maxD, next :: rest, depth, seen =>
    if next ∈ seen then dfsDepthList g fuel maxD rest depth seen
    else
      match dfsDepth g fuel maxD next (depth + 1) (next :: seen) with
      | .error e => .error e
      | .ok maxD' => dfsDepthList g fuel maxD' rest depth seen
termination_by fuel _ l _ _ => (fuel, l.length + 1)
end

/-- How an `analyzeGraph` call can fail: a thrown `GraphAnalyzerError`
(carrying its `code` and `message`), an uncaught runtime `TypeError`, or
the embedding-only fuel artifact (see `DfsErr.fuelOut`). -/
inductive GraphFailure where
  | analyzerError (code : String) (message : String)
  | typeError
  | outOfFuel
deriving DecidableEq, Repr

def liftDfs : DfsErr → GraphFailure
  | .typeError => .typeError
  | .fuelOut => .outOfFuel

/-- Recursion-depth budget passed to the embedded DFS runs; any bound
exceeding the number of distinct node names suffices. -/
def dfsFuel (w : WorkflowDefinition) : Nat :=
  w.states.length + w.transitions.length + 2

/-- `analyzeGraph(workflow)`. The `Array.isArray` validation cannot fire
for well-typed arguments. When `states` is empty, `startState =
workflow.states[0]` is `undefined` and `dfsReach(undefined)` evaluates
`graph[undefined]`, whose iteration throws a `TypeError`; the embedding
returns that outcome directly in the `[]` branch. The four passes run in
source order, so an exception in an earlier pass skips the later ones. -/
def analyzeGraph (workflow : WorkflowDefinition) : Except GraphFailure GraphAnalysis :=
  let graph := buildAdj workflow
  match workflow.states with
  | [] => .error .typeError
  | startState :: _ => do
    let visited ← (dfsReach graph (dfsFuel workflow) [] startState).mapError liftDfs
    let unreachableStates := workflow.states.filter (fun s => decide (s ∉ visited))
    let deadEnds := workflow.states.filter (fun s => decide ((lookupA graph s).getD [] = []))
    let cycleSt ← (dfsCycleAll graph (dfsFuel workflow) ⟨[], [], []⟩ workflow.states).mapError liftDfs
    let maxDepth ← (dfsDepth graph (dfsFuel workflow) 0 startState 1 [startState]).mapError liftDfs
    .ok ⟨cycleSt.cycles, deadEnds, maxDepth, unreachableStates⟩

-- ==========================================================================
-- Spec-side definitions (used to state the claims, worded from the spec)
-- ==========================================================================

/-- Spec wording: "globalAverage = mean of all per-state averages
(unweighted mean of averages, not a sample-weighted mean)". -/
def unweightedMean (l : List ℚ) : ℚ := l.sum / l.length

/-- Well-formedness invariant of the timing aggregate maps, maintained by
`updateTiming`: per-state totals have pairwise distinct keys, and every
state with a recorded total also has a recorded, positive sample count. -/
def TimingWF (σ : TimingState) : Prop :=
  (σ.stateTotals.map Prod.fst).Nodup ∧
  (∀ s, s ∈ σ.stateTotals.map Prod.fst →
    ∃ c, lookupA σ.stateCounts s = some c ∧ 0 < c)

/-- The three risk drivers of the what-if simulator. -/
inductive RiskDriver where
  | timing
  | structural
  | automation
deriving DecidableEq, Repr

/-- Spec wording: "picks the largest of the three breakdown components
(ties broken in order timing ≥ structure ≥ automation)". -/
def largestDriver (b : Breakdown) : RiskDriver :=
  let m := max b.timing (max b.structural b.automation)
  if b.timing = m then .timing
  else if b.structural = m then .structural
  else .automation

/-- Spec wording: the fixed reduction factor per driver —
"timing →50%, structure →40%, automation →60% of that component's value". -/
def driverReduction (d : RiskDriver) (b : Breakdown) : ℚ :=
  match d with
  | .timing => b.timing * 0.5
  | .structural => b.structural * 0.4
  | .automation => b.automation * 0.6

/-- The `primaryAction` string the source assigns for each driver. -/
def driverAction (d : RiskDriver) : String :=
  match d with
  | .timing => "Resolve state bottlenecks (Module 4)"
  | .structural => "Fix structural cycles/dead-ends (Module 3)"
  | .automation => "De-conflict automation rules (Module 5)"

/-- Graph-theoretic reachability over an adjacency map: `Reach g s u`
holds when `u` can be reached from `s` by following adjacency-list edges. -/
inductive Reach (g : List (String × List String)) (s : String) : String → Prop
  | refl : Reach g s s
  | step {u v : String} {l : List String} :
      Reach g s u → lookupA g u = some l → v ∈ l → Reach g s v

/-- Invariant of a successful `dfsReach` run: every node that entered the
visited set during the run has an adjacency entry, all of whose targets
were visited as well. -/
def ReachInv (g : List (String × List String)) (V V' : List String) : Prop :=
  ∀ x ∈ V', x ∉ V → ∃ l, lookupA g x = some l ∧ l ⊆ V'

-- ==========================================================================
-- Theorems
-- ==========================================================================

/-- The guarded `improvementPercentage` computation evaluates to `-Infinity`
whenever the numerator is `0 - p` for positive `p` and the denominator is 0:
the `isNaN` guard does not fire on `-Infinity`. -/
theorem improvementPct_negInf (p : ℚ) (hp : 0 < p) :
    (match jsRound (jsMulC (jsDiv (0 - p) 0) 100) with
      | JsNum.nan => JsNum.num 0
      | x => x) = JsNum.negInf := by
  have h1 : jsDiv (0 - p) 0 = .negInf := by
    unfold jsDiv
    rw [if_pos rfl, if_neg (by linarith), if_neg (by linarith)]
  rw [h1]
  norm_num [jsMulC, jsRound]

/-- Claim C1 (amended): for every RiskScore whose overallScore is 0, the
returned improvementPercentage is negative infinity, not 0 — the
potentialScore is floored at 0.05, so the quotient is a negative finite
value divided by zero, which is `-Infinity` and passes the `isNaN` guard
unchanged. -/
theorem claim_C1 (risk : RiskScore) (e : Explanation) (h : risk.overallScore = 0) :
    (simulateImprovement risk e).improvementPercentage = JsNum.negInf := by
  rcases risk with ⟨ov, b⟩
  simp only at h
  subst h
  simp only [simulateImprovement]
  exact improvementPct_negInf _ (lt_of_lt_of_le (by norm_num) (le_max_left _ _))

/-- Claim C1 counterexample: at overallScore 0 (breakdown all zero) the
code returns `-Infinity`, not 0, for improvementPercentage. -/
theorem claim_C1_counterexample :
    (simulateImprovement ⟨0, ⟨0, 0, 0⟩⟩ ⟨"", []⟩).improvementPercentage ≠ JsNum.num 0 := by
  have h : (simulateImprovement ⟨0, ⟨0, 0, 0⟩⟩ ⟨"", []⟩).improvementPercentage =
      JsNum.negInf := by
    simp only [simulateImprovement]
    exact improvementPct_negInf _ (lt_of_lt_of_le (by norm_num) (le_max_left _ _))
  simp [h]

/-- Claim C1 witness: the amended statement evaluated at overallScore 0. -/
theorem claim_C1_witness :
    (⟨0, ⟨0, 0, 0⟩⟩ : RiskScore).overallScore = 0 ∧
    (simulateImprovement ⟨0, ⟨0, 0, 0⟩⟩ ⟨"", []⟩).improvementPercentage = JsNum.negInf :=
  ⟨rfl, claim_C1 ⟨0, ⟨0, 0, 0⟩⟩ ⟨"", []⟩ rfl⟩

/-- Claim C2 (amended): for every workflow whose states list is empty (with
states and transitions present as lists), `analyzeGraph` throws the runtime
`TypeError` arising from `dfsReach(undefined)` iterating `graph[undefined]`
— not a `GraphAnalyzerError` with code INVALID_GRAPH. -/
theorem claim_C2 (id : String) (ts : List WTransition) :
    analyzeGraph ⟨id, [], ts⟩ = .error GraphFailure.typeError := rfl

/-- Claim C2 witness: the amended statement evaluated on an empty-states
workflow that still carries a transition. -/
theorem claim_C2_witness :
    analyzeGraph ⟨"wf2", [], [⟨"X", "Y"⟩]⟩ = .error GraphFailure.typeError :=
  claim_C2 "wf2" [⟨"X", "Y"⟩]

/-- Claim C2 counterexample: on the empty-states workflow the analyzer
raises the runtime TypeError, not the INVALID_GRAPH analyzer error the
claim asserts. -/
theorem claim_C2_counterexample :
    analyzeGraph ⟨"wf", [], []⟩ = .error GraphFailure.typeError ∧
    analyzeGraph ⟨"wf", [], []⟩ ≠
      .error (GraphFailure.analyzerError "INVALID_GRAPH" "Workflow definition is invalid") := by
  refine ⟨rfl, fun hcontra => ?_⟩
  rw [show analyzeGraph ⟨"wf", [], []⟩ = .error GraphFailure.typeError from rfl] at hcontra
  exact absurd (Except.error.inj hcontra) (by decide)

/-- Claim C5: for two rules sharing a trigger, each with one action on the
same field, `analyzeRules` emits exactly one OVERWRITE conflict for the
pair when the values differ, plus (independently) one LOOP conflict when
either value is the sentinel "CURRENT" — two conflicts when both hold. -/
theorem claim_C5 (projectId : String) (h : projectId ≠ "")
    (id1 id2 trig f v1 v2 : String) :
    analyzeRules projectId (.ok [⟨id1, trig, [⟨f, v1⟩]⟩, ⟨id2, trig, [⟨f, v2⟩]⟩]) =
      .ok ⟨(if v1 ≠ v2 then [⟨id1, id2, trig, f, .overwrite⟩] else []) ++
        (if v1 = "CURRENT" ∨ v2 = "CURRENT" then [⟨id1, id2, trig, f, .loop⟩] else [])⟩ := by
  simp [analyzeRules, h, detectConflicts, pairConflicts]

/-- Claim C5 witness: differing values, one of them the sentinel, yield the
OVERWRITE conflict followed by the LOOP conflict. -/
theorem claim_C5_witness :
    analyzeRules "P" (.ok [⟨"R1", "T", [⟨"status", "DONE"⟩]⟩,
        ⟨"R2", "T", [⟨"status", "CURRENT"⟩]⟩]) =
      .ok ⟨[⟨"R1", "R2", "T", "status", .overwrite⟩,
        ⟨"R1", "R2", "T", "status", .loop⟩]⟩ := by
  rw [claim_C5 "P" (by decide) "R1" "R2" "T" "status" "DONE" "CURRENT"]
  refine congrArg Except.ok ?_
  decide

/-- Claim C9: `updateTiming` is atomic with respect to errors — every
failing call (missing field, unparseable timestamp, out-of-order
timestamp) leaves all three aggregate maps exactly as they were. -/
theorem claim_C9 (event : TimingEvent) (σ : TimingState) (e : TimingAnalyzerError)
    (h : (updateTiming event σ).1 = .error e) :
    (updateTiming event σ).2 = σ := by
  rcases event with ⟨iid, fs, tsv, ts⟩
  by_cases h1 : iid = "" ∨ fs = "" ∨ tsv = ""
  · simp [updateTiming, h1]
  · cases ts with
    | none => simp [updateTiming, h1, parseTimestamp]
    | some time =>
      cases hl : lookupA σ.lastSeenState iid with
      | none =>
        simp [updateTiming, h1, parseTimestamp, hl] at h
      | some previous =>
        by_cases hd : (time - previous.2) / 1000 < 0
        · simp [updateTiming, h1, parseTimestamp, hl, hd]
        · simp [updateTiming, h1, parseTimestamp, hl, hd] at h

/-- Claim C9 witness: a call with an empty issueId fails and leaves the
empty aggregate state untouched. -/
theorem claim_C9_witness :
    (updateTiming ⟨"", "A", "B", some 0⟩ emptyTimingState).2 = emptyTimingState :=
  claim_C9 ⟨"", "A", "B", some 0⟩ emptyTimingState
    ⟨"INVALID_TRANSITION_SEQUENCE", "Missing required event fields"⟩ rfl

/-- Claim C3: from the empty aggregate state, `("I1","TODO","REVIEW",t0)`
then `("I1","REVIEW","DONE",t0+7200s)` both succeed; the first event
credits no state (totals stay empty), the elapsed 7200 seconds are
credited to the issue's previously recorded state REVIEW, and
`computeBottlenecks` then reports `stateAverages["REVIEW"] = 7200`. -/
theorem claim_C3 (t0 : ℚ) (scope : String) (h : scope ≠ "") :
    (updateTiming ⟨"I1", "TODO", "REVIEW", some t0⟩ emptyTimingState).1 = .ok () ∧
    (updateTiming ⟨"I1", "TODO", "REVIEW", some t0⟩ emptyTimingState).2.stateTotals = [] ∧
    (updateTiming ⟨"I1", "REVIEW", "DONE", some (t0 + 7200 * 1000)⟩
      (updateTiming ⟨"I1", "TODO", "REVIEW", some t0⟩ emptyTimingState).2).1 = .ok () ∧
    ∃ ta, computeBottlenecks scope
        (updateTiming ⟨"I1", "REVIEW", "DONE", some (t0 + 7200 * 1000)⟩
          (updateTiming ⟨"I1", "TODO", "REVIEW", some t0⟩ emptyTimingState).2).2 = .ok ta ∧
      lookupA ta.stateAverages "REVIEW" = some 7200 := by
  have h1 : updateTiming ⟨"I1", "TODO", "REVIEW", some t0⟩ emptyTimingState =
      (.ok (), ⟨[("I1", ("REVIEW", t0))], [], []⟩) := by
    simp [updateTiming, emptyTimingState, parseTimestamp, lookupA, setA]
  have hdur : (t0 + 7200 * 1000 - t0) / 1000 = (7200 : ℚ) := by ring
  have h2 : updateTiming ⟨"I1", "REVIEW", "DONE", some (t0 + 7200 * 1000)⟩
      (⟨[("I1", ("REVIEW", t0))], [], []⟩ : TimingState) =
      (.ok (), ⟨[("I1", ("DONE", t0 + 7200 * 1000))], [("REVIEW", 7200)], [("REVIEW", 1)]⟩) := by
    simp [updateTiming, parseTimestamp, lookupA, setA, hdur]
  have h3 : computeBottlenecks scope
      (⟨[("I1", ("DONE", t0 + 7200 * 1000))], [("REVIEW", 7200)], [("REVIEW", 1)]⟩ : TimingState) =
      .ok ⟨[("REVIEW", 7200)], []⟩ := by
    simp [computeBottlenecks, h, lookupA]
    norm_num
  rw [h1, h2]
  refine ⟨rfl, rfl, rfl, ⟨⟨[("REVIEW", 7200)], []⟩, ?_, ?_⟩⟩
  · exact h3
  · simp [lookupA]

/-- Claim C3 witness: the scenario evaluated at `t0 = 0`, scope "P". -/
theorem claim_C3_witness :
    (updateTiming ⟨"I1", "TODO", "REVIEW", some 0⟩ emptyTimingState).1 = .ok () ∧
    (updateTiming ⟨"I1", "TODO", "REVIEW", some 0⟩ emptyTimingState).2.stateTotals = [] ∧
    (updateTiming ⟨"I1", "REVIEW", "DONE", some (0 + 7200 * 1000)⟩
      (updateTiming ⟨"I1", "TODO", "REVIEW", some 0⟩ emptyTimingState).2).1 = .ok () ∧
    ∃ ta, computeBottlenecks "P"
        (updateTiming ⟨"I1", "REVIEW", "DONE", some (0 + 7200 * 1000)⟩
          (updateTiming ⟨"I1", "TODO", "REVIEW", some 0⟩ emptyTimingState).2).2 = .ok ta ∧
      lookupA ta.stateAverages "REVIEW" = some 7200 :=
  claim_C3 0 "P" (by decide)

/-- The final fallback push of `explainRisk` guarantees a non-empty
details list. -/
theorem one_le_fallback (d : List String) (ph : String) :
    1 ≤ (if d.length = 0 then d ++ [ph] else d).length := by
  cases d <;> simp

/-- Claim C8: `explainRisk` always returns at least one detail line, and
when no individual detail condition applies the details are exactly the
single "no issues detected" placeholder. -/
theorem claim_C8 (riskScore : RiskScore) (analyses : Analyses) :
    1 ≤ (explainRisk riskScore analyses).details.length ∧
    ((analyses.graph.cycles = [] ∧ analyses.graph.deadEnds = [] ∧
      analyses.graph.unreachableStates = [] ∧ analyses.graph.maxDepth ≤ 5 ∧
      analyses.timing.bottlenecks = [] ∧ analyses.automation.conflicts = []) →
      (explainRisk riskScore analyses).details =
        ["No significant workflow, timing, or automation issues detected."]) := by
  constructor
  · simp only [explainRisk]
    exact one_le_fallback _ _
  · rintro ⟨h1, h2, h3, h4, h5, h6⟩
    simp [explainRisk, h1, h2, h3, h5, h6, Nat.not_lt.mpr h4]

/-- Claim C8 witness: on an issue-free analysis bundle the single
placeholder is returned (hence a non-empty details list). -/
theorem claim_C8_witness :
    1 ≤ (explainRisk ⟨0, ⟨0, 0, 0⟩⟩ ⟨⟨[], [], 1, []⟩, ⟨[], []⟩, ⟨[]⟩⟩).details.length ∧
    (explainRisk ⟨0, ⟨0, 0, 0⟩⟩ ⟨⟨[], [], 1, []⟩, ⟨[], []⟩, ⟨[]⟩⟩).details =
      ["No significant workflow, timing, or automation issues detected."] :=
  ⟨(claim_C8 ⟨0, ⟨0, 0, 0⟩⟩ ⟨⟨[], [], 1, []⟩, ⟨[], []⟩, ⟨[]⟩⟩).1,
   (claim_C8 ⟨0, ⟨0, 0, 0⟩⟩ ⟨⟨[], [], 1, []⟩, ⟨[], []⟩, ⟨[]⟩⟩).2
     ⟨rfl, rfl, rfl, by norm_num, rfl, rfl⟩⟩

/-- Claim C7: `simulateImprovement` reduces the largest breakdown component
(ties broken timing ≥ structure ≥ automation) by its fixed factor
(timing 50%, structure 40%, automation 60%), subtracted from overallScore
and floored at 0.05; on breakdown {structure 0.2, timing 0.8,
automation 0.1} with overall 0.49 it picks the timing driver and returns
potentialScore 0.09. -/
theorem claim_C7 :
    (∀ (risk : RiskScore) (e : Explanation),
      (simulateImprovement risk e).primaryAction =
        driverAction (largestDriver risk.breakdown) ∧
      (simulateImprovement risk e).potentialScore =
        round2 (max 0.05 (risk.overallScore -
          driverReduction (largestDriver risk.breakdown) risk.breakdown))) ∧
    ((simulateImprovement ⟨0.49, ⟨0.2, 0.8, 0.1⟩⟩ ⟨"", []⟩).primaryAction =
      "Resolve state bottlenecks (Module 4)" ∧
     (simulateImprovement ⟨0.49, ⟨0.2, 0.8, 0.1⟩⟩ ⟨"", []⟩).potentialScore = 0.09) := by
  have hgen : ∀ (risk : RiskScore) (e : Explanation),
      (simulateImprovement risk e).primaryAction =
        driverAction (largestDriver risk.breakdown) ∧
      (simulateImprovement risk e).potentialScore =
        round2 (max 0.05 (risk.overallScore -
          driverReduction (largestDriver risk.breakdown) risk.breakdown)) := by
    intro risk e
    rcases risk with ⟨ov, s, t, a⟩
    by_cases h1 : s ≤ t ∧ a ≤ t
    · have hm : largestDriver ⟨s, t, a⟩ = .timing := by
        unfold largestDriver
        simp [max_eq_left (max_le h1.1 h1.2)]
      simp [simulateImprovement, hm, driverAction, driverReduction, h1]
    · by_cases h2 : a ≤ s
      · have hts : t < s := by
          push_neg at h1
          by_contra hc
          push_neg at hc
          exact absurd (le_trans h2 hc) (not_le.mpr (h1 hc))
        have hm : largestDriver ⟨s, t, a⟩ = .structural := by
          simp only [largestDriver]
          rw [max_eq_left h2, max_eq_right hts.le, if_neg hts.ne, if_pos rfl]
        simp [simulateImprovement, hm, driverAction, driverReduction, h1, h2]
      · push_neg at h2
        have hta : t < a := by
          push_neg at h1
          by_contra hc
          push_neg at hc
          exact absurd (h1 (le_trans h2.le hc)) (not_lt.mpr hc)
        have hm : largestDriver ⟨s, t, a⟩ = .automation := by
          simp only [largestDriver]
          rw [max_eq_right h2.le, max_eq_right hta.le, if_neg hta.ne, if_neg h2.ne]
        simp [simulateImprovement, hm, driverAction, driverReduction, h1, not_le.mpr h2]
  refine ⟨hgen, ?_, ?_⟩
  · rw [(hgen ⟨0.49, ⟨0.2, 0.8, 0.1⟩⟩ ⟨"", []⟩).1]
    have hld : largestDriver ⟨0.2, 0.8, 0.1⟩ = .timing := by
      unfold largestDriver
      norm_num
    rw [hld]
    rfl
  · rw [(hgen ⟨0.49, ⟨0.2, 0.8, 0.1⟩⟩ ⟨"", []⟩).2]
    have hld : largestDriver ⟨0.2, 0.8, 0.1⟩ = .timing := by
      unfold largestDriver
      norm_num
    rw [hld]
    have hmax : max (0.05 : ℚ) ((0.49 : ℚ) - driverReduction .timing ⟨0.2, 0.8, 0.1⟩) =
        (9 / 100 : ℚ) := by
      unfold driverReduction
      norm_num
    rw [hmax]
    unfold round2
    rw [show ((9 : ℚ) / 100 * 100) = ((9 : ℤ) : ℚ) by norm_num, round_intCast]
    norm_num

/-- Claim C7 witness: the general selection/reduction statement evaluated
at one concrete risk score. -/
theorem claim_C7_witness :
    (simulateImprovement ⟨1, ⟨0.5, 0.3, 0.2⟩⟩ ⟨"s", ["d"]⟩).primaryAction =
      driverAction (largestDriver (⟨1, ⟨0.5, 0.3, 0.2⟩⟩ : RiskScore).breakdown) ∧
    (simulateImprovement ⟨1, ⟨0.5, 0.3, 0.2⟩⟩ ⟨"s", ["d"]⟩).potentialScore =
      round2 (max 0.05 ((⟨1, ⟨0.5, 0.3, 0.2⟩⟩ : RiskScore).overallScore -
        driverReduction (largestDriver (⟨1, ⟨0.5, 0.3, 0.2⟩⟩ : RiskScore).breakdown)
          (⟨1, ⟨0.5, 0.3, 0.2⟩⟩ : RiskScore).breakdown)) :=
  claim_C7.1 ⟨1, ⟨0.5, 0.3, 0.2⟩⟩ ⟨"s", ["d"]⟩

/-- `round2` commutes with adding the exact step 3/50 (= 0.06): a 0.06
increase of the pre-rounded score raises the rounded score by exactly
6/100. -/
theorem round2_add_step (x : ℚ) : round2 (x + 3 / 50) = round2 x + 6 / 100 := by
  unfold round2
  rw [show ((x + 3 / 50) * 100) = x * 100 + ((6 : ℤ) : ℚ) by push_cast; ring,
    round_add_int]
  push_cast
  ring

/-- Claim C6: with the graph analysis and rule report held fixed, each
extra bottleneck (up to five) raises the rounded overall score by exactly
6/100 — hence strictly — and at five bottlenecks the timing component of
the breakdown saturates at 1. -/
theorem claim_C6 (g : GraphAnalysis) (auto : RuleConflictReport)
    (t t' : TimingAnalysis)
    (hstep : t'.bottlenecks.length = t.bottlenecks.length + 1)
    (hle : t'.bottlenecks.length ≤ 5) :
    (computeRisk g t auto).overallScore < (computeRisk g t' auto).overallScore ∧
    (t'.bottlenecks.length = 5 → (computeRisk g t' auto).breakdown.timing = 1) := by
  have hn : t.bottlenecks.length ≤ 4 := by omega
  constructor
  · simp only [computeRisk]
    rw [hstep]
    have h1 : min ((t.bottlenecks.length : ℚ) / 5) 1 = (t.bottlenecks.length : ℚ) / 5 := by
      apply min_eq_left
      rw [div_le_one (by norm_num)]
      exact_mod_cast le_trans hn (by norm_num)
    have h2 : min (((t.bottlenecks.length + 1 : ℕ) : ℚ) / 5) 1 =
        ((t.bottlenecks.length + 1 : ℕ) : ℚ) / 5 := by
      apply min_eq_left
      rw [div_le_one (by norm_num)]
      exact_mod_cast (by omega : t.bottlenecks.length + 1 ≤ 5)
    rw [h1, h2]
    have key : min ((((g.cycles.length : ℚ) + g.deadEnds.length + g.unreachableStates.length +
        max 0 ((g.maxDepth : ℚ) - 5)) : ℚ) / 10) 1 * 0.5 +
        ((t.bottlenecks.length + 1 : ℕ) : ℚ) / 5 * 0.3 +
        min (((auto.conflicts.map (fun conflict =>
          if conflict.conflictType = .loop then (2 : ℚ) else 1)).sum : ℚ) / 5) 1 * 0.2 =
        (min ((((g.cycles.length : ℚ) + g.deadEnds.length + g.unreachableStates.length +
          max 0 ((g.maxDepth : ℚ) - 5)) : ℚ) / 10) 1 * 0.5 +
         (t.bottlenecks.length : ℚ) / 5 * 0.3 +
         min (((auto.conflicts.map (fun conflict =>
           if conflict.conflictType = .loop then (2 : ℚ) else 1)).sum : ℚ) / 5) 1 * 0.2) +
        3 / 50 := by
      push_cast
      ring
    rw [key, round2_add_step]
    norm_num
  · intro h5
    simp only [computeRisk]
    rw [h5]
    rw [show min (((5 : ℕ) : ℚ) / 5) 1 = 1 by norm_num]
    unfold round2
    rw [show ((1 : ℚ) * 100) = ((100 : ℤ) : ℚ) by norm_num, round_intCast]
    norm_num

/-- Claim C6 witness: going from four to five bottlenecks strictly raises
the overall score, and at five the timing breakdown is 1. -/
theorem claim_C6_witness :
    (computeRisk ⟨[], [], 1, []⟩ ⟨[], ["a", "b", "c", "d"]⟩ ⟨[]⟩).overallScore <
      (computeRisk ⟨[], [], 1, []⟩ ⟨[], ["a", "b", "c", "d", "e"]⟩ ⟨[]⟩).overallScore ∧
    (computeRisk ⟨[], [], 1, []⟩ ⟨[], ["a", "b", "c", "d", "e"]⟩ ⟨[]⟩).breakdown.timing = 1 :=
  ⟨(claim_C6 ⟨[], [], 1, []⟩ ⟨[]⟩ ⟨[], ["a", "b", "c", "d"]⟩
      ⟨[], ["a", "b", "c", "d", "e"]⟩ rfl (by norm_num)).1,
   (claim_C6 ⟨[], [], 1, []⟩ ⟨[]⟩ ⟨[], ["a", "b", "c", "d"]⟩
      ⟨[], ["a", "b", "c", "d", "e"]⟩ rfl (by norm_num)).2 rfl⟩

theorem lookupA_eq_none {α : Type} (m : List (String × α)) (k : String) :
    lookupA m k = none ↔ k ∉ m.map Prod.fst := by
  induction m with
  | nil => simp [lookupA]
  | cons p rest ih =>
    rcases p with ⟨k', v⟩
    by_cases hk : k' = k
    · subst hk
      simp [lookupA]
    · rw [List.map_cons]
      simp only [lookupA, if_neg hk, List.mem_cons]
      rw [ih]
      constructor
      · intro h hor
        rcases hor with h1 | h2
        · exact hk h1.symm
        · exact h h2
      · intro h h2
        exact h (Or.inr h2)

theorem lookupA_of_mem {α : Type} {m : List (String × α)} {k : String} {v : α}
    (hmem : (k, v) ∈ m) (hnd : (m.map Prod.fst).Nodup) : lookupA m k = some v := by
  induction m with
  | nil => simp at hmem
  | cons p rest ih =>
    rcases p with ⟨k', v'⟩
    simp only [List.map_cons, List.nodup_cons] at hnd
    rcases List.mem_cons.mp hmem with heq | hmem'
    · obtain ⟨hk, hv⟩ := Prod.mk.injEq k v k' v' ▸ heq
      subst hk
      subst hv
      simp [lookupA]
    · have hk : k' ≠ k := by
        intro h
        exact hnd.1 (h ▸ List.mem_map_of_mem Prod.fst hmem')
      simp [lookupA, hk, ih hmem' hnd.2]

theorem lookupA_mem {α : Type} {m : List (String × α)} {k : String} {v : α}
    (h : lookupA m k = some v) : (k, v) ∈ m := by
  induction m with
  | nil => simp [lookupA] at h
  | cons p rest ih =>
    rcases p with ⟨k', v'⟩
    by_cases hk : k' = k
    · subst hk
      have hv : v' = v := by simpa [lookupA] using h
      rw [← hv]
      exact List.mem_cons_self _ _
    · simp only [lookupA, if_neg hk] at h
      exact List.mem_cons_of_mem _ (ih h)

theorem lookupA_map_self {α : Type} (f : String → α) (l : List String) (k : String)
    (hnd : l.Nodup) (hk : k ∈ l) :
    lookupA (l.map fun s => (s, f s)) k = some (f k) := by
  have hmem : (k, f k) ∈ l.map (fun s => (s, f s)) :=
    List.mem_map_of_mem (fun s => (s, f s)) hk
  apply lookupA_of_mem hmem
  have hfst : ((l.map fun s => (s, f s)).map Prod.fst) = l := by
    rw [List.map_map]
    exact List.map_congr_left (fun a _ => rfl) |>.trans (List.map_id _)
  rw [hfst]
  exact hnd

/-- Claim C4: on any well-formed aggregate with at least one recorded
sample and a non-empty scope key, `computeBottlenecks` succeeds; each
state's average is its total divided by its count, and the bottlenecks are
exactly the states whose average strictly exceeds 1.5 times the unweighted
mean of the per-state averages. -/
theorem claim_C4 (σ : TimingState) (pid : String) (hpid : pid ≠ "")
    (hne : σ.stateTotals ≠ []) (hwf : TimingWF σ) :
    ∃ ta, computeBottlenecks pid σ = .ok ta ∧
      ta.stateAverages.map Prod.fst = σ.stateTotals.map Prod.fst ∧
      (∀ s tot c, lookupA σ.stateTotals s = some tot →
        lookupA σ.stateCounts s = some c →
        lookupA ta.stateAverages s = some (tot / c)) ∧
      (∀ s, s ∈ ta.bottlenecks ↔ ∃ av, lookupA ta.stateAverages s = some av ∧
        1.5 * unweightedMean (ta.stateAverages.map Prod.snd) < av) := by
  have hlen : ¬((σ.stateTotals.map Prod.fst).length = 0) := by
    rw [List.length_map]
    exact fun h => hne (List.length_eq_zero.mp h)
  simp only [computeBottlenecks, if_neg hpid, if_neg hlen]
  refine ⟨_, rfl, ?_, ?_, ?_⟩
  · simp [List.map_map, Function.comp]
  · intro s tot c h1 h2
    have hs : s ∈ σ.stateTotals.map Prod.fst :=
      List.mem_map_of_mem Prod.fst (lookupA_mem h1)
    rw [lookupA_map_self _ _ _ hwf.1 hs, h1, h2]
    simp
  · intro s
    have hfst : (((σ.stateTotals.map Prod.fst).map (fun state =>
        (state, (lookupA σ.stateTotals state).getD 0 /
          (lookupA σ.stateCounts state).getD 0))).map Prod.fst) =
        σ.stateTotals.map Prod.fst := by
      simp [List.map_map, Function.comp]
    have hnd : (((σ.stateTotals.map Prod.fst).map (fun state =>
        (state, (lookupA σ.stateTotals state).getD 0 /
          (lookupA σ.stateCounts state).getD 0))).map Prod.fst).Nodup := by
      rw [hfst]
      exact hwf.1
    have hmean : ∀ A : List (String × ℚ), A.map Prod.fst = σ.stateTotals.map Prod.fst →
        (A.map Prod.snd).sum / ((σ.stateTotals.map Prod.fst).length : ℚ) =
          unweightedMean (A.map Prod.snd) := by
      intro A hA
      unfold unweightedMean
      rw [List.length_map, List.length_map, ← List.length_map A Prod.fst, hA,
        List.length_map]
    constructor
    · intro hs
      simp only [List.mem_map] at hs
      obtain ⟨p, hpfilter, hps⟩ := hs
      rw [List.mem_filter] at hpfilter
      obtain ⟨hpA, hcond⟩ := hpfilter
      simp only [decide_eq_true_eq] at hcond
      refine ⟨p.2, ?_, ?_⟩
      · rw [← hps]
        exact lookupA_of_mem (Prod.mk.eta ▸ hpA) hnd
      · rw [mul_comm, ← hmean _ hfst]
        exact hcond
    · rintro ⟨av, hlook, hlt⟩
      have hmem := lookupA_mem hlook
      refine List.mem_map.mpr ⟨(s, av), ?_, rfl⟩
      rw [List.mem_filter]
      refine ⟨hmem, ?_⟩
      simp only [decide_eq_true_eq]
      rw [← mul_comm (1.5 : ℚ), hmean _ hfst]
      exact hlt

/-- Claim C4 witness: a two-state aggregate where one state's average
strictly exceeds 1.5 times the mean of averages. -/
theorem claim_C4_witness :
    ∃ ta, computeBottlenecks "P"
        (⟨[], [("A", 100), ("B", 10)], [("A", 1), ("B", 1)]⟩ : TimingState) = .ok ta ∧
      ta.stateAverages.map Prod.fst = ["A", "B"] ∧
      lookupA ta.stateAverages "A" = some 100 ∧
      ("A" ∈ ta.bottlenecks ↔ ∃ av, lookupA ta.stateAverages "A" = some av ∧
        1.5 * unweightedMean (ta.stateAverages.map Prod.snd) < av) := by
  obtain ⟨ta, hok, hkeys, havg, hbn⟩ :=
    claim_C4 (⟨[], [("A", 100), ("B", 10)], [("A", 1), ("B", 1)]⟩ : TimingState) "P"
      (by decide) (by decide)
      ⟨by decide, by
        intro s hs
        simp only [List.map_cons, List.map_nil, List.mem_cons,
          List.not_mem_nil, or_false] at hs
        rcases hs with h | h
        · subst h
          exact ⟨1, by decide, by norm_num⟩
        · subst h
          exact ⟨1, by decide, by norm_num⟩⟩
  refine ⟨ta, hok, hkeys, ?_, hbn "A"⟩
  have := havg "A" 100 1 rfl rfl
  simpa using this

/-- A successful DFS run only grows the visited set (both entry points). -/
theorem dfs_mono (g : List (String × List String)) : ∀ fuel : Nat,
    (∀ V s V', dfsReach g fuel V s = .ok V' → V ⊆ V') ∧
    (∀ V l V', dfsReachList g fuel V l = .ok V' → V ⊆ V') := by
  intro fuel
  induction fuel with
  | zero =>
    constructor
    · intro V s V' h
      simp [dfsReach] at h
    · intro V l V' h
      cases l with
      | nil =>
        simp only [dfsReachList] at h
        injection h with h
        exact h ▸ List.Subset.refl V
      | cons n rest =>
        simp [dfsReachList, dfsReach] at h
  | succ fuel ih =>
    have hreach : ∀ V s V', dfsReach g (fuel + 1) V s = .ok V' → V ⊆ V' := by
      intro V s V' h
      rw [dfsReach] at h
      by_cases hs : s ∈ V
      · rw [if_pos hs] at h
        injection h with h
        exact h ▸ List.Subset.refl V
      · rw [if_neg hs] at h
        cases hl : lookupA g s with
        | none =>
          rw [hl] at h
          cases h
        | some adj =>
          rw [hl] at h
          exact fun x hx => ih.2 (s :: V) adj V' h (List.mem_cons_of_mem _ hx)
    refine ⟨hreach, ?_⟩
    intro V l
    induction l generalizing V with
    | nil =>
      intro V' h
      simp only [dfsReachList] at h
      injection h with h
      exact h ▸ List.Subset.refl V
    | cons n rest ihl =>
      intro V' h
      rw [dfsReachList] at h
      cases hr : dfsReach g (fuel + 1) V n with
      | error e =>
        rw [hr] at h
        cases h
      | ok V1 =>
        rw [hr] at h
        exact (hreach V n V1 hr).trans (ihl V1 V' h)

/-- Soundness of a successful DFS run: the visited set grows, contains the
argument node(s), and every newly visited node is declared with all its
adjacency targets visited. -/
theorem dfs_sound (g : List (String × List String)) : ∀ fuel : Nat,
    (∀ V s V', dfsReach g fuel V s = .ok V' →
      V ⊆ V' ∧ s ∈ V' ∧ ReachInv g V V') ∧
    (∀ V ns V', dfsReachList g fuel V ns = .ok V' →
      V ⊆ V' ∧ ns ⊆ V' ∧ ReachInv g V V') := by
  intro fuel
  induction fuel with
  | zero =>
    constructor
    · intro V s V' h
      simp [dfsReach] at h
    · intro V ns V' h
      cases ns with
      | nil =>
        simp only [dfsReachList] at h
        injection h with h
        subst h
        exact ⟨List.Subset.refl V, List.nil_subset V, fun x _ hxV' => absurd ‹x ∈ V› hxV'⟩
      | cons n rest =>
        simp [dfsReachList, dfsReach] at h
  | succ fuel ih =>
    have hreach : ∀ V s V', dfsReach g (fuel + 1) V s = .ok V' →
        V ⊆ V' ∧ s ∈ V' ∧ ReachInv g V V' := by
      intro V s V' h
      rw [dfsReach] at h
      by_cases hs : s ∈ V
      · rw [if_pos hs] at h
        injection h with h
        subst h
        exact ⟨List.Subset.refl V, hs, fun x _ hxV' => absurd ‹x ∈ V› hxV'⟩
      · rw [if_neg hs] at h
        cases hl : lookupA g s with
        | none =>
          rw [hl] at h
          cases h
        | some adj =>
          rw [hl] at h
          obtain ⟨hsub, hadj, hinv⟩ := ih.2 (s :: V) adj V' h
          refine ⟨fun x hx => hsub (List.mem_cons_of_mem _ hx),
            hsub (List.mem_cons_self _ _), ?_⟩
          intro x hx hxV
          by_cases hxs : x = s
          · subst hxs
            exact ⟨adj, hl, hadj⟩
          · refine hinv x hx ?_
            intro hmem
            rcases List.mem_cons.mp hmem with h1 | h2
            · exact hxs h1
            · exact hxV h2
    refine ⟨hreach, ?_⟩
    intro V ns
    induction ns generalizing V with
    | nil =>
      intro V' h
      simp only [dfsReachList] at h
      injection h with h
      subst h
      exact ⟨List.Subset.refl V, List.nil_subset V, fun x _ hxV' => absurd ‹x ∈ V› hxV'⟩
    | cons n rest ihl =>
      intro V' h
      rw [dfsReachList] at h
      cases hr : dfsReach g (fuel + 1) V n with
      | error e =>
        rw [hr] at h
        cases h
      | ok V1 =>
        rw [hr] at h
        obtain ⟨h1sub, h1mem, h1inv⟩ := hreach V n V1 hr
        obtain ⟨h2sub, h2rest, h2inv⟩ := ihl V1 V' h
        refine ⟨h1sub.trans h2sub, ?_, ?_⟩
        · intro x hx
          rcases List.mem_cons.mp hx with h1 | h2
          · exact h1 ▸ h2sub h1mem
          · exact h2rest h2
        · intro x hx hxV
          by_cases hxV1 : x ∈ V1
          · obtain ⟨l, hl, hlsub⟩ := h1inv x hxV1 hxV
            exact ⟨l, hl, hlsub.trans h2sub⟩
          · exact h2inv x hx hxV1

/-- Fuel sufficiency: with a fuel budget exceeding the number of not-yet
visited candidate nodes, the bounded DFS never runs out of fuel (it either
succeeds or raises the TypeError). `U` is any list containing every node
that can be passed to `dfsReach`. -/
theorem dfs_noFuelOut (g : List (String × List String)) (U : List String)
    (hU : ∀ k l, lookupA g k = some l → l ⊆ U) : ∀ fuel : Nat,
    (∀ V s, s ∈ U → (U.toFinset \ V.toFinset).card < fuel →
      dfsReach g fuel V s ≠ .error .fuelOut) ∧
    (∀ V ns, ns ⊆ U → (U.toFinset \ V.toFinset).card < fuel →
      dfsReachList g fuel V ns ≠ .error .fuelOut) := by
  intro fuel
  induction fuel with
  | zero =>
    constructor
    · intro V s _ hcard
      exact absurd hcard (Nat.not_lt_zero _)
    · intro V ns _ hcard
      exact absurd hcard (Nat.not_lt_zero _)
  | succ fuel ih =>
    have hreach : ∀ V s, s ∈ U → (U.toFinset \ V.toFinset).card < fuel + 1 →
        dfsReach g (fuel + 1) V s ≠ .error .fuelOut := by
      intro V s hs hcard h
      rw [dfsReach] at h
      by_cases hv : s ∈ V
      · rw [if_pos hv] at h
        cases h
      · rw [if_neg hv] at h
        cases hl : lookupA g s with
        | none =>
          rw [hl] at h
          injection h with h
          cases h
        | some adj =>
          rw [hl] at h
          have hsmem : s ∈ U.toFinset \ V.toFinset :=
            Finset.mem_sdiff.mpr ⟨List.mem_toFinset.mpr hs,
              fun hc => hv (List.mem_toFinset.mp hc)⟩
          have hpos : 0 < (U.toFinset \ V.toFinset).card := Finset.card_pos.mpr ⟨s, hsmem⟩
          have hsd : U.toFinset \ (s :: V).toFinset = (U.toFinset \ V.toFinset).erase s := by
            ext x
            simp only [List.toFinset_cons, Finset.mem_sdiff, Finset.mem_insert,
              Finset.mem_erase]
            tauto
          have hcard' : (U.toFinset \ (s :: V).toFinset).card < fuel := by
            rw [hsd, Finset.card_erase_of_mem hsmem]
            omega
          exact (ih.2 (s :: V) adj (hU s adj hl) hcard') h
    refine ⟨hreach, ?_⟩
    intro V ns hns hcard
    induction ns generalizing V with
    | nil =>
      intro h
      simp [dfsReachList] at h
    | cons n rest ihl =>
      intro h
      rw [dfsReachList] at h
      cases hr : dfsReach g (fuel + 1) V n with
      | error e =>
        rw [hr] at h
        injection h with h
        rw [h] at hr
        exact hreach V n (hns (List.mem_cons_self _ _)) hcard hr
      | ok V1 =>
        rw [hr] at h
        have hsub : V ⊆ V1 := (dfs_mono g (fuel + 1)).1 V n V1 hr
        have hfin : V.toFinset ⊆ V1.toFinset := by
          intro x hx
          exact List.mem_toFinset.mpr (hsub (List.mem_toFinset.mp hx))
        have hcard1 : (U.toFinset \ V1.toFinset).card < fuel + 1 :=
          lt_of_le_of_lt
            (Finset.card_le_card (Finset.sdiff_subset_sdiff (le_refl _) hfin)) hcard
        exact ihl V1 (fun x hx => hns (List.mem_cons_of_mem _ hx)) hcard1 h

/-- A visited set containing the start node and closed under declared
adjacency contains every node reachable from the start. -/
theorem reach_subset (g : List (String × List String)) (start : String)
    (V' : List String) (hstart : start ∈ V')
    (hclosed : ∀ x ∈ V', ∃ l, lookupA g x = some l ∧ l ⊆ V') :
    ∀ u, Reach g start u → u ∈ V' := by
  intro u hr
  induction hr with
  | refl => exact hstart
  | @step u' v l _ hl hv ih =>
    obtain ⟨l', hl', hsub⟩ := hclosed u' ih
    rw [hl] at hl'
    injection hl' with hll
    exact hsub (hll ▸ hv)

/-- If some node reachable from `start` has no adjacency entry, the
reachability DFS necessarily aborts with the TypeError. -/
theorem dfsReach_typeError (g : List (String × List String)) (U : List String)
    (start u : String) (fuel : Nat)
    (hU : ∀ k l, lookupA g k = some l → l ⊆ U)
    (hstart : start ∈ U)
    (hfuel : U.toFinset.card < fuel)
    (hreach : Reach g start u)
    (hnone : lookupA g u = none) :
    dfsReach g fuel [] start = .error .typeError := by
  cases hres : dfsReach g fuel [] start with
  | ok V' =>
    obtain ⟨_, hstart', hinv⟩ := (dfs_sound g fuel).1 [] start V' hres
    have hclosed : ∀ x ∈ V', ∃ l, lookupA g x = some l ∧ l ⊆ V' :=
      fun x hx => hinv x hx (List.not_mem_nil x)
    obtain ⟨l, hl, _⟩ := hclosed u (reach_subset g start V' hstart' hclosed u hreach)
    rw [hnone] at hl
    cases hl
  | error e =>
    cases e with
    | typeError => rfl
    | fuelOut =>
      have hcard : (U.toFinset \ ([] : List String).toFinset).card < fuel := by
        simpa using hfuel
      exact absurd hres ((dfs_noFuelOut g U hU fuel).1 [] start hstart hcard)

theorem map_fst_mk_nil (l : List String) :
    ((l.map fun state => (state, ([] : List String))).map Prod.fst) = l := by
  induction l with
  | nil => rfl
  | cons s rest ih => simp [ih]

theorem pushEdge_keys (m : List (String × List String)) (t : WTransition) :
    (pushEdge m t).map Prod.fst = m.map Prod.fst := by
  induction m with
  | nil => rfl
  | cons p rest ih =>
    rcases p with ⟨k, l⟩
    by_cases hk : k = t.fromState
    · simp [pushEdge, hk]
    · simp [pushEdge, hk, ih]

theorem foldl_pushEdge_keys (ts : List WTransition) :
    ∀ m : List (String × List String),
      ((ts.foldl pushEdge m).map Prod.fst) = m.map Prod.fst := by
  induction ts with
  | nil => intro m; rfl
  | cons t ts ih =>
    intro m
    rw [List.foldl_cons, ih (pushEdge m t), pushEdge_keys]

/-- The adjacency map has exactly the declared states as keys. -/
theorem buildAdj_keys (w : WorkflowDefinition) :
    (buildAdj w).map Prod.fst = w.states := by
  unfold buildAdj
  rw [foldl_pushEdge_keys, map_fst_mk_nil]

theorem pushEdge_lookup_eq (m : List (String × List String)) (t : WTransition)
    (l : List String) (h : lookupA m t.fromState = some l) :
    lookupA (pushEdge m t) t.fromState = some (l ++ [t.toState]) := by
  induction m with
  | nil => simp [lookupA] at h
  | cons p rest ih =>
    rcases p with ⟨k, l'⟩
    by_cases hk : k = t.fromState
    · subst hk
      simp only [lookupA, if_pos rfl] at h
      injection h with h
      subst h
      simp [pushEdge, lookupA]
    · simp only [lookupA, if_neg hk] at h
      simp [pushEdge, lookupA, hk, ih h]

theorem pushEdge_lookup_ne (m : List (String × List String)) (t : WTransition)
    (k : String) (hk : k ≠ t.fromState) :
    lookupA (pushEdge m t) k = lookupA m k := by
  induction m with
  | nil => rfl
  | cons p rest ih =>
    rcases p with ⟨k', l'⟩
    by_cases hk' : k' = t.fromState
    · subst hk'
      have hne : ¬(t.fromState = k) := fun h => hk h.symm
      simp only [pushEdge, if_pos rfl, lookupA, if_neg hne]
    · simp only [pushEdge, if_neg hk', lookupA]
      by_cases hkk : k' = k
      · rw [if_pos hkk, if_pos hkk]
      · rw [if_neg hkk, if_neg hkk]
        exact ih

/-- Folding further transitions over the adjacency map only appends to an
existing key's list. -/
theorem foldl_pushEdge_lookup_mono (ts : List WTransition) :
    ∀ (m : List (String × List String)) (k : String) (l : List String),
      lookupA m k = some l →
      ∃ l', lookupA (ts.foldl pushEdge m) k = some l' ∧ l ⊆ l' := by
  induction ts with
  | nil => exact fun m k l h => ⟨l, h, List.Subset.refl l⟩
  | cons t ts ih =>
    intro m k l h
    rw [List.foldl_cons]
    by_cases hk : k = t.fromState
    · subst hk
      obtain ⟨l', hl', hsub⟩ := ih (pushEdge m t) t.fromState (l ++ [t.toState])
        (pushEdge_lookup_eq m t l h)
      exact ⟨l', hl', fun x hx => hsub (List.mem_append_left _ hx)⟩
    · exact ih (pushEdge m t) k l ((pushEdge_lookup_ne m t k hk).trans h)

/-- Every transition whose source is a key of the accumulating map ends up
recorded in the source's adjacency list. -/
theorem foldl_pushEdge_edge (ts : List WTransition) :
    ∀ (m : List (String × List String)) (t : WTransition), t ∈ ts →
      (∃ l0, lookupA m t.fromState = some l0) →
      ∃ l, lookupA (ts.foldl pushEdge m) t.fromState = some l ∧ t.toState ∈ l := by
  induction ts with
  | nil => intro m t ht; cases ht
  | cons t' ts ih =>
    intro m t ht ⟨l0, hl0⟩
    rw [List.foldl_cons]
    rcases List.mem_cons.mp ht with heq | hmem
    · subst heq
      obtain ⟨l', hl', hsub⟩ := foldl_pushEdge_lookup_mono ts (pushEdge m t)
        t.fromState (l0 ++ [t.toState]) (pushEdge_lookup_eq m t l0 hl0)
      exact ⟨l', hl', hsub (List.mem_append_right _ (List.mem_singleton.mpr rfl))⟩
    · by_cases hk : t.fromState = t'.fromState
      · refine ih (pushEdge m t') t hmem ⟨l0 ++ [t'.toState], ?_⟩
        rw [hk]
        exact pushEdge_lookup_eq m t' l0 (hk ▸ hl0)
      · exact ih (pushEdge m t') t hmem
          ⟨l0, (pushEdge_lookup_ne m t' t.fromState hk).trans hl0⟩

/-- Any adjacency list stored in the map is contained in the concatenation
of all stored adjacency lists. -/
theorem lookupA_val_subset (m : List (String × List String)) (k : String)
    (l : List String) (h : lookupA m k = some l) :
    l ⊆ m.flatMap Prod.snd := by
  induction m with
  | nil => simp [lookupA] at h
  | cons p rest ih =>
    rcases p with ⟨k', l'⟩
    simp only [lookupA] at h
    by_cases hk : k' = k
    · rw [if_pos hk] at h
      injection h with h
      intro x hx
      refine List.mem_flatMap.mpr ⟨(k', l'), List.mem_cons_self _ _, ?_⟩
      rw [h]
      exact hx
    · rw [if_neg hk] at h
      intro x hx
      rcases List.mem_flatMap.mp (ih h hx) with ⟨p, hp, hxp⟩
      exact List.mem_flatMap.mpr ⟨p, List.mem_cons_of_mem _ hp, hxp⟩

theorem pushEdge_flat_len (m : List (String × List String)) (t : WTransition) :
    ((pushEdge m t).flatMap Prod.snd).length ≤ (m.flatMap Prod.snd).length + 1 := by
  induction m with
  | nil => simp [pushEdge]
  | cons p rest ih =>
    rcases p with ⟨k, l⟩
    by_cases hk : k = t.fromState
    · simp [pushEdge, hk]
      omega
    · simp only [pushEdge, if_neg hk, List.flatMap_cons, List.length_append]
      omega

theorem foldl_pushEdge_flat_len (ts : List WTransition) :
    ∀ m : List (String × List String),
      (((ts.foldl pushEdge m).flatMap Prod.snd).length) ≤
        (m.flatMap Prod.snd).length + ts.length := by
  induction ts with
  | nil => intro m; simp
  | cons t ts ih =>
    intro m
    rw [List.foldl_cons]
    have h1 := ih (pushEdge m t)
    have h2 := pushEdge_flat_len m t
    simp only [List.length_cons]
    omega

theorem buildAdj_flat_len (w : WorkflowDefinition) :
    (((buildAdj w).flatMap Prod.snd).length) ≤ w.transitions.length := by
  unfold buildAdj
  have h := foldl_pushEdge_flat_len w.transitions (w.states.map fun state => (state, []))
  have h0 : (((w.states.map fun state => (state, ([] : List String))).flatMap
      Prod.snd).length) = 0 := by
    induction w.states with
    | nil => rfl
    | cons s rest ih => simpa using ih
  omega

/-- Claim C10: a workflow with a transition from a declared, entry-reachable
source to an undeclared target makes `analyzeGraph` throw the runtime
TypeError (iterating the missing adjacency list during the reachability
DFS) rather than returning findings or a typed GraphAnalyzerError. -/
theorem claim_C10 (w : WorkflowDefinition) (s0 : String) (rest : List String)
    (hstates : w.states = s0 :: rest) (t : WTransition) (ht : t ∈ w.transitions)
    (hfrom : t.fromState ∈ w.states) (hto : t.toState ∉ w.states)
    (hreach : Reach (buildAdj w) s0 t.fromState) :
    analyzeGraph w = .error GraphFailure.typeError := by
  have hfromKey : ∃ l0, lookupA (w.states.map fun state => (state, ([] : List String)))
      t.fromState = some l0 := by
    cases hl : lookupA (w.states.map fun state => (state, ([] : List String)))
        t.fromState with
    | some l0 => exact ⟨l0, rfl⟩
    | none =>
      exfalso
      apply (lookupA_eq_none _ _).mp hl
      rw [map_fst_mk_nil]
      exact hfrom
  obtain ⟨l, hl, hmem⟩ := foldl_pushEdge_edge w.transitions
    (w.states.map fun state => (state, [])) t ht hfromKey
  have hreachTo : Reach (buildAdj w) s0 t.toState := Reach.step hreach hl hmem
  have hnone : lookupA (buildAdj w) t.toState = none := by
    rw [lookupA_eq_none, buildAdj_keys]
    exact hto
  have hU : ∀ k l', lookupA (buildAdj w) k = some l' →
      l' ⊆ s0 :: (buildAdj w).flatMap Prod.snd := by
    intro k l' h x hx
    exact List.mem_cons_of_mem _ (lookupA_val_subset _ _ _ h hx)
  have hstart : s0 ∈ s0 :: (buildAdj w).flatMap Prod.snd := List.mem_cons_self _ _
  have hfuel : (s0 :: (buildAdj w).flatMap Prod.snd).toFinset.card < dfsFuel w := by
    have h1 := List.toFinset_card_le (s0 :: (buildAdj w).flatMap Prod.snd)
    have h2 := buildAdj_flat_len w
    have h3 : w.states.length = rest.length + 1 := by rw [hstates]; rfl
    simp only [List.length_cons] at h1
    unfold dfsFuel
    omega
  have hdfs : dfsReach (buildAdj w) (dfsFuel w) [] s0 = .error .typeError :=
    dfsReach_typeError (buildAdj w) (s0 :: (buildAdj w).flatMap Prod.snd) s0
      t.toState (dfsFuel w) hU hstart hfuel hreachTo hnone
  unfold analyzeGraph
  rw [hstates]
  simp only [hdfs, Except.mapError, Except.bind]
  rfl

/-- Claim C10 witness: a single declared state "A" with a transition to
the undeclared state "B": the analyzer crashes with the TypeError. -/
theorem claim_C10_witness :
    analyzeGraph ⟨"w", ["A"], [⟨"A", "B"⟩]⟩ = .error GraphFailure.typeError :=
  claim_C10 ⟨"w", ["A"], [⟨"A", "B"⟩]⟩ "A" [] rfl ⟨"A", "B"⟩
    (List.mem_singleton.mpr rfl) (by decide) (by decide) Reach.refl

end FlowSentry
